import Mathlib

/-!
Verification development for the log-analysis pipeline of this repository
(`analyzer.py`, `log_parser.py`, `nlp_engine.py`, `log_visualizer.py`).

The Python code is shallowly embedded: pandas DataFrames become typed tables
of rows (`Table`), machine timestamps are integers of UTC epoch seconds,
missing values (`NaN` / `NaT`) are `Option.none`, fallible operations return
`Except`.  Python's `re` module is modelled by a small executable regex engine
over the fragment of syntax the repository exercises (literals, `.`, escapes,
character classes, `*`, `+`, `?`); patterns outside the fragment — in
particular the unterminated class `"["` used in the spec's scenario, which
CPython also rejects — fail to compile, which models `re.error`.
-/

namespace LogPipeline

/-- Case-insensitive-or-not character equality; models comparison under
Python's `re.IGNORECASE` (ASCII folding). -/
def eqCi (ci : Bool) (a b : Char) : Bool :=
  if ci then a.toLower == b.toLower else a == b

/-- ASCII lower-casing over the character data; models Python's `str.lower`
(the core `String.toLower` does not reduce in the kernel). -/
def strLower (s : String) : String :=
  ⟨s.toList.map Char.toLower⟩

/-- ASCII upper-casing over the character data; models Python's `str.upper`.
-/
def strUpper (s : String) : String :=
  ⟨s.toList.map Char.toUpper⟩

/-- The whitespace characters of Python's `str.strip`. -/
def isPySpace (c : Char) : Bool :=
  c == ' ' || c == '\t' || c == '\n' || c == '\r' || c == '\x0b' || c == '\x0c'

/-- Models Python's `str.strip()`. -/
def strTrim (s : String) : String :=
  ⟨((s.toList.dropWhile isPySpace).reverse.dropWhile isPySpace).reverse⟩

/-- Decide whether `p` is a prefix of `h` (character lists). -/
def listPrefixEq : List Char → List Char → Bool
  | [], _ => true
  | _ :: _, [] => false
  | a :: as, b :: bs => a == b && listPrefixEq as bs

/-- Decide whether `p` occurs as a contiguous substring of `h`; models
Python's `in` operator on strings. -/
def containsSub (p : List Char) : List Char → Bool
  | [] => listPrefixEq p []
  | c :: t => listPrefixEq p (c :: t) || containsSub p t

/-- Literal (non-regex) substring test; models
`pandas.Series.str.contains(pat, case=..., regex=False)`: with `case=False`
(`ci = true`) both sides are lower-cased first. -/
def str_contains_literal (ci : Bool) (hay pat : String) : Bool :=
  let h := if ci then strLower hay else hay
  let p := if ci then strLower pat else pat
  containsSub p.toList h.toList

/-- One member of a regex character class `[...]`. -/
inductive ClsItem where
  | single (c : Char)
  | range (lo hi : Char)
deriving DecidableEq

/-- A regex atom of the modelled fragment of Python `re` syntax. -/
inductive RAtom where
  | lit (c : Char)
  | dot
  | dcls
  | wcls
  | scls
  | cls (neg : Bool) (items : List ClsItem)
deriving DecidableEq

/-- Repetition suffix attached to an atom. -/
inductive Rep where
  | one
  | star
  | plus
  | opt
deriving DecidableEq

/-- A parsed regex is a sequence of atoms with repetition markers. -/
abbrev RPiece := RAtom × Rep

/-- Parse the body of a character class up to the closing `]`; `none` models
`re.error` on an unterminated class (the behaviour CPython shows for `"["`).
The fuel only bounds recursion depth; each step consumes at least one
character, so the fuel passed by `re_compile` never runs out. -/
def parseClsItems : Nat → List Char → Option (List ClsItem × List Char)
  | _, [] => none
  | _, ']' :: rest => some ([], rest)
  | 0, _ :: _ => none
  | f + 1, '\\' :: c :: rest =>
      match parseClsItems f rest with
      | some (items, r) => some (ClsItem.single c :: items, r)
      | none => none
  | f + 1, a :: '-' :: b :: rest =>
      if b = ']' then
        match parseClsItems f (b :: rest) with
        | some (items, r) => some (ClsItem.single a :: ClsItem.single '-' :: items, r)
        | none => none
      else
        match parseClsItems f rest with
        | some (items, r) => some (ClsItem.range a b :: items, r)
        | none => none
  | f + 1, a :: rest =>
      match parseClsItems f rest with
      | some (items, r) => some (ClsItem.single a :: items, r)
      | none => none

/-- Parse a class right after its opening `[`: optional negation `^`, and a
leading `]` is a literal member as in Python. -/
def parseClsStart (fuel : Nat) (l : List Char) : Option (Bool × List ClsItem × List Char) :=
  let (neg, l1) := match l with
    | '^' :: t => (true, t)
    | _ => (false, l)
  match l1 with
  | ']' :: t =>
      match parseClsItems fuel t with
      | some (items, r) => some (neg, ClsItem.single ']' :: items, r)
      | none => none
  | _ =>
      match parseClsItems fuel l1 with
      | some (items, r) => some (neg, items, r)
      | none => none

/-- Characters that cannot start an atom in the modelled fragment (either
repetition operators, which CPython rejects in that position, or syntax the
model does not support and conservatively treats as non-compiling). -/
def atomReject : List Char := ['*', '+', '?', '(', ')', '\x7b', '\x7d', '|', '^', '$']

/-- Parse one atom from the front of the pattern. -/
def parseAtom (fuel : Nat) : List Char → Option (RAtom × List Char)
  | [] => none
  | '.' :: rest => some (RAtom.dot, rest)
  | '\\' :: [] => none
  | '\\' :: c :: rest =>
      if c = 'd' then some (RAtom.dcls, rest)
      else if c = 'w' then some (RAtom.wcls, rest)
      else if c = 's' then some (RAtom.scls, rest)
      else if c.isAlphanum then none
      else some (RAtom.lit c, rest)
  | '[' :: rest =>
      match parseClsStart fuel rest with
      | some (n, its, r) => some (RAtom.cls n its, r)
      | none => none
  | c :: rest =>
      if atomReject.contains c then none else some (RAtom.lit c, rest)

/-- Fuelled top-level regex parse; each step consumes at least one character,
so fuel `length + 1` always suffices. -/
def parseRegexAux : Nat → List Char → Option (List RPiece)
  | _, [] => some []
  | 0, _ :: _ => none
  | fuel + 1, l =>
      match parseAtom fuel l with
      | none => none
      | some (a, rest) =>
        match rest with
        | '*' :: r2 =>
            match parseRegexAux fuel r2 with
            | some ps => some ((a, Rep.star) :: ps)
            | none => none
        | '+' :: r2 =>
            match parseRegexAux fuel r2 with
            | some ps => some ((a, Rep.plus) :: ps)
            | none => none
        | '?' :: r2 =>
            match parseRegexAux fuel r2 with
            | some ps => some ((a, Rep.opt) :: ps)
            | none => none
        | _ =>
            match parseRegexAux fuel rest with
            | some ps => some ((a, Rep.one) :: ps)
            | none => none

/-- A compiled pattern together with its case-insensitivity flag. -/
structure CompiledRe where
  pieces : List RPiece
  ci : Bool
deriving DecidableEq

/-- Models `re.compile(pat, re.IGNORECASE if ci else 0)`: `none` models a
raised `re.error`. -/
def re_compile (pat : String) (ci : Bool) : Option CompiledRe :=
  match parseRegexAux (pat.length + 1) pat.toList with
  | some ps => some ⟨ps, ci⟩
  | none => none

/-- Membership of a character in one class item. -/
def clsItemMatch (ci : Bool) (c : Char) : ClsItem → Bool
  | ClsItem.single d => eqCi ci c d
  | ClsItem.range lo hi =>
      (lo ≤ c && c ≤ hi)
      || (ci && ((lo ≤ c.toLower && c.toLower ≤ hi) || (lo ≤ c.toUpper && c.toUpper ≤ hi)))

/-- Match one atom against one character. -/
def matchAtom (ci : Bool) (a : RAtom) (c : Char) : Bool :=
  match a with
  | RAtom.lit d => eqCi ci c d
  | RAtom.dot => c != '\n'
  | RAtom.dcls => c.isDigit
  | RAtom.wcls => c.isAlphanum || c == '_'
  | RAtom.scls => c == ' ' || c == '\t' || c == '\n' || c == '\r' || c == '\x0b' || c == '\x0c'
  | RAtom.cls neg items => (items.any (clsItemMatch ci c)) != neg

/-- Backtracking matcher: does the piece list match a prefix of `l`? -/
def matchHere (ci : Bool) : List RPiece → List Char → Bool
  | [], _ => true
  | (a, Rep.one) :: ps, l =>
      match l with
      | [] => false
      | c :: t => matchAtom ci a c && matchHere ci ps t
  | (a, Rep.opt) :: ps, l =>
      matchHere ci ps l
      || (match l with
          | [] => false
          | c :: t => matchAtom ci a c && matchHere ci ps t)
  | (a, Rep.star) :: ps, l =>
      matchHere ci ps l
      || (match l with
          | [] => false
          | c :: t => matchAtom ci a c && matchHere ci ((a, Rep.star) :: ps) t)
  | (a, Rep.plus) :: ps, l =>
      match l with
      | [] => false
      | c :: t => matchAtom ci a c && matchHere ci ((a, Rep.star) :: ps) t
termination_by ps l => (l.length, ps.length)
decreasing_by all_goals (simp_wf; omega)

/-- Try to match at every start position. -/
def searchFrom (re : CompiledRe) : List Char → Bool
  | [] => matchHere re.ci re.pieces []
  | c :: t => matchHere re.ci re.pieces (c :: t) || searchFrom re t

/-- Models `pattern.search(s)` returning a truthy match object or `None`. -/
def re_search (re : CompiledRe) (s : String) : Bool :=
  searchFrom re s.toList

/-! ## Data model: normalized tables (pandas DataFrames after parsing)

A cell of a time column is either an already-converted datetime
(datetime64 dtype; `parsed none` is `NaT`) or a still-unconverted string
(object dtype), mirroring that `analyze` converts the column with
`pd.to_datetime(..., errors='coerce')` only when it is not already datetime.
All other modelled columns are object-dtype string columns whose `none` is
`NaN`.  A `Table` records which of the columns consulted by `analyze`
exist (`ColFlags`); `Row.extra` models any further object/string columns
(such as `source_file`), which only the full-text search touches. -/

/-- A cell of the `timestamp` / `datetime` column. -/
inductive TsCell where
  | parsed (v : Option Int)
  | raw (s : String)
deriving DecidableEq

/-- One row of a normalized table. -/
structure Row where
  timestamp : TsCell := TsCell.parsed none
  datetime : TsCell := TsCell.parsed none
  severity : Option String := none
  action : Option String := none
  protocol : Option String := none
  message_id : Option String := none
  hostname : Option String := none
  src_ip : Option String := none
  dst_ip : Option String := none
  src_port : Option String := none
  dst_port : Option String := none
  message : Option String := none
  extra : List (Option String) := []
deriving DecidableEq

/-- Which of the columns consulted by `analyze` exist in the table. -/
structure ColFlags where
  timestamp : Bool := false
  datetime : Bool := false
  severity : Bool := false
  action : Bool := false
  protocol : Bool := false
  message_id : Bool := false
  hostname : Bool := false
  src_ip : Bool := false
  dst_ip : Bool := false
  src_port : Bool := false
  dst_port : Bool := false
  message : Bool := false
deriving DecidableEq

/-- A normalized table: its schema and its rows. -/
structure Table where
  flags : ColFlags := {}
  rows : List Row := []
deriving DecidableEq

/-- Models `Series.astype(str)` on an object column: `NaN` prints as "nan". -/
def astype_str : Option String → String
  | some s => s
  | none => "nan"

/-- Days since 1970-01-01 of a civil date (valid for years ≥ 0). -/
def daysFromCivil (y m d : Int) : Int :=
  let y2 := if m ≤ 2 then y - 1 else y
  let era := y2 / 400
  let yoe := y2 - era * 400
  let mp := (m + 9) % 12
  let doy := (153 * mp + 2) / 5 + d - 1
  let doe := yoe * 365 + yoe / 4 - yoe / 100 + doy
  era * 146097 + doe - 719468

/-- Read exactly `n` digits, accumulating their value. -/
def digitsVal (acc : Nat) : Nat → List Char → Option (Nat × List Char)
  | 0, l => some (acc, l)
  | _ + 1, [] => none
  | n + 1, c :: t =>
      if c.isDigit then digitsVal (acc * 10 + (c.toNat - 48)) n t else none

/-- Consume one expected character. -/
def expectChar (c : Char) : List Char → Option (List Char)
  | [] => none
  | x :: t => if x = c then some t else none

/-- Models `pd.to_datetime(s, errors='coerce', utc=True)` on one cell, for the
ISO subset `YYYY-MM-DD[ T]HH:MM:SS` / `YYYY-MM-DD`; anything else coerces to
`NaT` (`none`).  The result is UTC epoch seconds. -/
def pd_to_datetime (s : String) : Option Int :=
  match digitsVal 0 4 s.toList with
  | none => none
  | some (y, l1) =>
    match expectChar '-' l1 with
    | none => none
    | some l2 =>
      match digitsVal 0 2 l2 with
      | none => none
      | some (mo, l3) =>
        match expectChar '-' l3 with
        | none => none
        | some l4 =>
          match digitsVal 0 2 l4 with
          | none => none
          | some (d, l5) =>
            match l5 with
            | [] => some (86400 * daysFromCivil y mo d)
            | sep :: l6 =>
              if sep = ' ' || sep = 'T' then
                match digitsVal 0 2 l6 with
                | none => none
                | some (h, l7) =>
                  match expectChar ':' l7 with
                  | none => none
                  | some l8 =>
                    match digitsVal 0 2 l8 with
                    | none => none
                    | some (mi, l9) =>
                      match expectChar ':' l9 with
                      | none => none
                      | some l10 =>
                        match digitsVal 0 2 l10 with
                        | none => none
                        | some (sec, l11) =>
                          if l11 = [] then
                            some (86400 * daysFromCivil y mo d + 3600 * h + 60 * mi + sec)
                          else none
              else none

/-- Convert one time cell, as `pd.to_datetime(col, errors='coerce')` does on
an object-dtype column; a no-op on an already-datetime cell. -/
def coerceTsCell : TsCell → TsCell
  | TsCell.parsed v => TsCell.parsed v
  | TsCell.raw s => TsCell.parsed (pd_to_datetime s)

/-- Which physical column `analyze` selects as the time column. -/
inductive TimeCol where
  | tsCol
  | dtCol
deriving DecidableEq

/-- Models the loop `for col in ['timestamp', 'datetime']` choosing the first
present column. -/
def time_column (f : ColFlags) : Option TimeCol :=
  if f.timestamp then some TimeCol.tsCol
  else if f.datetime then some TimeCol.dtCol
  else none

/-- Read the selected time cell from a row. -/
def cellAt : TimeCol → Row → TsCell
  | TimeCol.tsCol, r => r.timestamp
  | TimeCol.dtCol, r => r.datetime

/-- In-place `current_data[time_column] = pd.to_datetime(...)` on one row. -/
def coerceRowAt : TimeCol → Row → Row
  | TimeCol.tsCol, r => { r with timestamp := coerceTsCell r.timestamp }
  | TimeCol.dtCol, r => { r with datetime := coerceTsCell r.datetime }

/-- The datetime value of the selected time cell; `none` is `NaT` (a raw cell
only occurs before conversion and never reaches a comparison). -/
def tsValueAt (tc : TimeCol) (r : Row) : Option Int :=
  match cellAt tc r with
  | TsCell.parsed v => v
  | TsCell.raw _ => none

/-! ## Filter specifications (`search_params`) -/

/-- A scalar-or-list filter value, already rendered with `str(...)`. -/
inductive SpecVal where
  | one (v : String)
  | many (vs : List String)
deriving DecidableEq

/-- The `time_range` dict; `stop` models the key "end" (a Lean keyword).
Values are UTC epoch seconds; an absent/`None`/`NaT` bound is `none`.
A falsy (`None` or empty) `time_range` is modelled by
`SearchParams.time_range = none`. -/
structure TimeRange where
  start : Option Int := none
  stop : Option Int := none
deriving DecidableEq

/-- The `search_params` dict of `LogAnalyzer.analyze`. -/
structure SearchParams where
  time_range : Option TimeRange := none
  severity : Option SpecVal := none
  action : Option SpecVal := none
  protocol : Option SpecVal := none
  message_id : Option String := none
  hostname : Option String := none
  src_ip : Option String := none
  dst_ip : Option String := none
  src_port : Option String := none
  dst_port : Option String := none
  message_text : Option String := none
  full_text : Option String := none
  use_regex : Bool := false
  case_sensitive : Bool := false
  results_limit : Option Nat := none
deriving DecidableEq

/-- The one exception `analyze` can propagate in the model: `re.error`
escaping the regex fallback path. -/
inductive PyErr where
  | regexError
deriving DecidableEq

/-! ## The filter stages of `LogAnalyzer.analyze`, in source order -/

/-- Row test for `current_data[time_column] >= start_time` (`NaT` compares
false). -/
def tsGE (tc : TimeCol) (st : Int) (r : Row) : Bool :=
  match tsValueAt tc r with
  | some v => decide (st ≤ v)
  | none => false

/-- Row test for `current_data[time_column] <= end_time` (`NaT` compares
false). -/
def tsLE (tc : TimeCol) (en : Int) (r : Row) : Bool :=
  match tsValueAt tc r with
  | some v => decide (v ≤ en)
  | none => false

/-- Time filtering (analyzer.py lines 30–58): applied only when a time column
exists and `time_range` is truthy; each bound filters only when present and
not `NaT`. -/
def timeStage (f : ColFlags) (s : SearchParams) (rows : List Row) : List Row :=
  match time_column f, s.time_range with
  | some tc, some tr =>
    let rows1 := match tr.start with
      | some st => rows.filter fun r => tsGE tc st r
      | none => rows
    match tr.stop with
    | some en => rows1.filter fun r => tsLE tc en r
    | none => rows1
  | _, _ => rows

/-- Severity filtering (lines 62–72): `astype(str)` equality or membership;
note no case folding here. -/
def sevStage (f : ColFlags) (s : SearchParams) (rows : List Row) : List Row :=
  match s.severity with
  | none => rows
  | some sv =>
    if f.severity then
      match sv with
      | SpecVal.one v => rows.filter fun r => astype_str r.severity == v
      | SpecVal.many vs => rows.filter fun r => vs.contains (astype_str r.severity)
    else rows

/-- Action filtering (lines 74–88): both sides upper-cased, unconditionally
case-insensitive. -/
def actStage (f : ColFlags) (s : SearchParams) (rows : List Row) : List Row :=
  match s.action with
  | none => rows
  | some sv =>
    if f.action then
      match sv with
      | SpecVal.one v => rows.filter fun r => strUpper (astype_str r.action) == strUpper v
      | SpecVal.many vs =>
          rows.filter fun r => (vs.map strUpper).contains (strUpper (astype_str r.action))
    else rows

/-- Protocol filtering (lines 90–104), identical in shape to the action
filter. -/
def protStage (f : ColFlags) (s : SearchParams) (rows : List Row) : List Row :=
  match s.protocol with
  | none => rows
  | some sv =>
    if f.protocol then
      match sv with
      | SpecVal.one v => rows.filter fun r => strUpper (astype_str r.protocol) == strUpper v
      | SpecVal.many vs =>
          rows.filter fun r => (vs.map strUpper).contains (strUpper (astype_str r.protocol))
    else rows

/-- The five substring/regex-filtered fields. -/
inductive SubField where
  | mid
  | host
  | sip
  | dip
  | mtext
deriving DecidableEq

/-- The search-parameter pattern of a substring field. -/
def fieldPat : SubField → SearchParams → Option String
  | SubField.mid, s => s.message_id
  | SubField.host, s => s.hostname
  | SubField.sip, s => s.src_ip
  | SubField.dip, s => s.dst_ip
  | SubField.mtext, s => s.message_text

/-- Column-existence flag of a substring field (`message_text` searches the
`message` column). -/
def fieldFlag : SubField → ColFlags → Bool
  | SubField.mid, f => f.message_id
  | SubField.host, f => f.hostname
  | SubField.sip, f => f.src_ip
  | SubField.dip, f => f.dst_ip
  | SubField.mtext, f => f.message

/-- Cell of a substring field in a row. -/
def fieldVal : SubField → Row → Option String
  | SubField.mid, r => r.message_id
  | SubField.host, r => r.hostname
  | SubField.sip, r => r.src_ip
  | SubField.dip, r => r.dst_ip
  | SubField.mtext, r => r.message

/-- One substring/regex filter block (lines 106–204 and 219–242).  With
`use_regex`, an invalid pattern enters the `except re.error` handler whose
fallback `str.contains(pat, case=..., na=False)` omits `regex=False`, so
pandas recompiles the invalid pattern and the same `re.error` is raised out
of `analyze`: the model returns `Except.error`. -/
def containsStage (f : ColFlags) (s : SearchParams) (sf : SubField)
    (rows : List Row) : Except PyErr (List Row) :=
  match fieldPat sf s with
  | none => Except.ok rows
  | some p =>
    if (p != "") && fieldFlag sf f then
      if s.use_regex then
        match re_compile p (!s.case_sensitive) with
        | some re => Except.ok (rows.filter fun r => re_search re (astype_str (fieldVal sf r)))
        | none => Except.error PyErr.regexError
      else
        Except.ok (rows.filter fun r =>
          str_contains_literal (!s.case_sensitive) (astype_str (fieldVal sf r)) p)
    else Except.ok rows

/-- Port filtering (lines 206–217): string-rendered equality. -/
def portStage (f : ColFlags) (s : SearchParams) (isSrc : Bool) (rows : List Row) : List Row :=
  let pat := if isSrc then s.src_port else s.dst_port
  let flag := if isSrc then f.src_port else f.dst_port
  match pat with
  | none => rows
  | some p =>
    if (p != "") && flag then
      rows.filter fun r => astype_str (if isSrc then r.src_port else r.dst_port) == p
    else rows

/-- The object/string-dtype cells of a row, as `select_dtypes` sees them after
parsing (time columns are datetime dtype and excluded); `extra` models further
string columns such as `source_file`. -/
def stringCells (f : ColFlags) (r : Row) : List String :=
  (if f.severity then [astype_str r.severity] else [])
  ++ (if f.action then [astype_str r.action] else [])
  ++ (if f.protocol then [astype_str r.protocol] else [])
  ++ (if f.message_id then [astype_str r.message_id] else [])
  ++ (if f.hostname then [astype_str r.hostname] else [])
  ++ (if f.src_ip then [astype_str r.src_ip] else [])
  ++ (if f.dst_ip then [astype_str r.dst_ip] else [])
  ++ (if f.src_port then [astype_str r.src_port] else [])
  ++ (if f.dst_port then [astype_str r.dst_port] else [])
  ++ (if f.message then [astype_str r.message] else [])
  ++ r.extra.map astype_str

/-- Full-text search (lines 244–278): OR of per-column contains masks; the
regex path shares the raising fallback of `containsStage`. -/
def fullTextStage (f : ColFlags) (s : SearchParams) (rows : List Row) :
    Except PyErr (List Row) :=
  match s.full_text with
  | none => Except.ok rows
  | some p =>
    if p != "" then
      if s.use_regex then
        match re_compile p (!s.case_sensitive) with
        | some re => Except.ok (rows.filter fun r => (stringCells f r).any fun c => re_search re c)
        | none => Except.error PyErr.regexError
      else
        Except.ok (rows.filter fun r =>
          (stringCells f r).any fun c => str_contains_literal (!s.case_sensitive) c p)
    else Except.ok rows

/-- Result truncation (lines 280–284). -/
def applyLimit (s : SearchParams) (rows : List Row) : List Row :=
  match s.results_limit with
  | none => rows
  | some n => if rows.length > n then rows.take n else rows

/-- The filter chain of `analyze` after the in-place time conversion, in
source order. -/
def analyzeRows (f : ColFlags) (s : SearchParams) (rows : List Row) :
    Except PyErr (List Row) := do
  let rows := timeStage f s rows
  let rows := sevStage f s rows
  let rows := actStage f s rows
  let rows := protStage f s rows
  let rows ← containsStage f s SubField.mid rows
  let rows ← containsStage f s SubField.host rows
  let rows ← containsStage f s SubField.sip rows
  let rows ← containsStage f s SubField.dip rows
  let rows := portStage f s true rows
  let rows := portStage f s false rows
  let rows ← containsStage f s SubField.mtext rows
  let rows ← fullTextStage f s rows
  return applyLimit s rows

/-! ## Object heap: `analyze` and its frame effect

Python DataFrames are heap objects; `analyze` copies its argument
(`current_data = log_data.copy()`, line 23) and its only in-place mutation —
the time-column conversion of line 43 — targets the copy.  The heap is a list
of tables indexed by object id, so the claim that the caller's table is
untouched is a statement about the heap after the call. -/

/-- The object heap: table objects indexed by allocation order. -/
abbrev Heap := List Table

/-- The table with no columns and no rows, as `pd.DataFrame()` builds. -/
def emptyTable : Table := {}

/-- Dereference an object id. -/
def heapGet (h : Heap) (i : Nat) : Table :=
  h.getD i emptyTable

/-- In-place update of the object at id `i`. -/
def heapSet (h : Heap) (i : Nat) (t : Table) : Heap :=
  h.set i t

/-- Allocate a fresh object, returning its id. -/
def halloc (h : Heap) (t : Table) : Heap × Nat :=
  (h ++ [t], h.length)

/-- In-place conversion of the selected time column of a whole table
(analyzer.py lines 42–43; a no-op on an already-datetime column). -/
def coerceTableTime (t : Table) : Table :=
  match time_column t.flags with
  | some tc => { t with rows := t.rows.map (coerceRowAt tc) }
  | none => t

/-- `LogAnalyzer.analyze` over the heap: early return of a fresh empty frame
on empty input (line 19), copy (line 23), in-place time conversion on the
copy under the guard of line 40, then the pure filter chain, whose
re-bindings allocate fresh frames and touch no existing object. -/
def analyzeHeap (h : Heap) (i : Nat) (s : SearchParams) :
    Heap × Except PyErr Table :=
  let t := heapGet h i
  if t.rows.isEmpty then (h, Except.ok emptyTable)
  else
    let p := halloc h t
    let h2 := if (time_column t.flags).isSome && s.time_range.isSome then
        heapSet p.1 p.2 (coerceTableTime (heapGet p.1 p.2))
      else p.1
    let cur := heapGet h2 p.2
    (h2, (analyzeRows cur.flags s cur.rows).map fun rs => { flags := cur.flags, rows := rs })

/-- `LogAnalyzer.analyze` as seen by the caller: the returned table. -/
def analyze (t : Table) (s : SearchParams) : Except PyErr Table :=
  (analyzeHeap [t] 0 s).2

/-- Decidable equality of `Except` results, for evaluating the model at
concrete inputs. -/
instance {ε α : Type} [DecidableEq ε] [DecidableEq α] : DecidableEq (Except ε α) := by
  intro a b
  cases a <;> cases b
  case error.error e1 e2 =>
    exact if h : e1 = e2 then isTrue (by rw [h]) else isFalse (by intro hc; cases hc; exact h rfl)
  case error.ok e1 v2 => exact isFalse (by intro hc; cases hc)
  case ok.error v1 e2 => exact isFalse (by intro hc; cases hc)
  case ok.ok v1 v2 =>
    exact if h : v1 = v2 then isTrue (by rw [h]) else isFalse (by intro hc; cases hc; exact h rfl)

/-! ## `LogAnalyzer.generate_summary`

The model covers the summary fields the specification's claims consult:
`total_logs`, the time extent (`earliest_log` / `latest_log` /
`time_span_hours`, each `none` when the source leaves the key unset), and
the value distributions of the five candidate fields.  The request-echo keys
(`time_range`, `query_params`, `viz_type`) and the top-N / daily-count /
crosstab keys follow the same guard shapes and are not modelled. -/

/-- Is a time cell `NaN`/`NaT` to `isna()` before conversion?  A raw string
cell is not na. -/
def tsCellIsNa : TsCell → Bool
  | TsCell.parsed none => true
  | TsCell.parsed (some _) => false
  | TsCell.raw _ => false

/-- The selected time column's cells, when a time column exists. -/
def timeColCells (t : Table) : Option (List TsCell) :=
  match time_column t.flags with
  | some tc => some (t.rows.map (cellAt tc))
  | none => none

/-- The summary dict; a `none` field models an absent key. -/
structure Summary where
  total_logs : Nat
  earliest_log : Option (Option Int) := none
  latest_log : Option (Option Int) := none
  time_span_hours : Option ℚ := none
  distributions : List (String × List (String × Nat)) := []
deriving DecidableEq

/-- Stable insertion into a count-descending list (ties keep earlier keys). -/
def insertDescBySnd (x : String × Nat) : List (String × Nat) → List (String × Nat)
  | [] => [x]
  | y :: ys => if x.2 > y.2 then x :: y :: ys else y :: insertDescBySnd x ys

/-- Models `Series.value_counts()` on rendered strings: counts in descending
order (tie order fixed to first occurrence; the claims do not depend on it). -/
def value_counts_str (l : List String) : List (String × Nat) :=
  let keys := l.foldl (fun acc k => if acc.contains k then acc else acc ++ [k]) []
  (keys.map fun k => (k, l.count k)).foldr insertDescBySnd []

/-- The raw cells of one of the five distribution candidate columns, when the
column exists. -/
def strColVals (t : Table) (name : String) : Option (List (Option String)) :=
  match name with
  | "action" => if t.flags.action then some (t.rows.map Row.action) else none
  | "protocol" => if t.flags.protocol then some (t.rows.map Row.protocol) else none
  | "severity" => if t.flags.severity then some (t.rows.map Row.severity) else none
  | "hostname" => if t.flags.hostname then some (t.rows.map Row.hostname) else none
  | "message_id" => if t.flags.message_id then some (t.rows.map Row.message_id) else none
  | _ => none

/-- One distribution entry (analyzer.py lines 323–330): present only when the
column exists, is not all-na, and keeps a non-blank value after filtering. -/
def distFor (t : Table) (name : String) : Option (String × List (String × Nat)) :=
  match strColVals t name with
  | none => none
  | some vals =>
    if vals.any Option.isSome then
      let counts := (value_counts_str (vals.map astype_str)).filter fun kv => strTrim kv.1 != ""
      if counts.isEmpty then none else some (name, counts)
    else none

/-- `LogAnalyzer.generate_summary` (lines 289–330 of analyzer.py, the fields
the claims consult).  The time block is computed only when a time column
exists and is not all-na; `min`/`max` skip `NaT`, and the span falls back to
`0` when either end is `NaT`. -/
def generate_summary (t : Table) : Summary :=
  let timeBlock : Option (Option Int) × Option (Option Int) × Option ℚ :=
    match timeColCells t with
    | none => (none, none, none)
    | some cells =>
      if cells.all tsCellIsNa then (none, none, none)
      else
        let vals : List (Option Int) := cells.map fun c =>
          match coerceTsCell c with
          | TsCell.parsed v => v
          | TsCell.raw _ => none
        let e := (vals.filterMap id).min?
        let l := (vals.filterMap id).max?
        let span : ℚ := match e, l with
          | some a, some b => ((b - a : Int) : ℚ) / 3600
          | _, _ => 0
        (some e, some l, some span)
  { total_logs := t.rows.length
    earliest_log := timeBlock.1
    latest_log := timeBlock.2.1
    time_span_hours := timeBlock.2.2
    distributions := ["action", "protocol", "severity", "hostname", "message_id"].filterMap (distFor t) }

/-! ## `LogParser`: time-column detection, timestamp standardization,
delimiter detection -/

/-- `self.common_headers['timestamp']` of log_parser.py. -/
def common_time_headers : List String :=
  ["timestamp", "date", "time", "datetime", "@timestamp", "eventtime"]

/-- `LogParser.find_time_column` (lines 66–77): first matching alias, in
alias order, else the first column whose lower-cased name contains "time" or
"date". -/
def find_time_column (columns : List String) : Option String :=
  match common_time_headers.find? fun name => columns.contains name with
  | some n => some n
  | none =>
    columns.find? fun col =>
      str_contains_literal false (strLower col) "time"
        || str_contains_literal false (strLower col) "date"

/-- A table as read from CSV, before timestamp standardization: named columns
of string cells. -/
structure RawTable where
  cols : List String
  rows : List (List String)
deriving DecidableEq

/-- The cells of a named column (empty string for a missing index). -/
def rawColumn (rt : RawTable) (name : String) : List String :=
  match rt.cols.indexOf? name with
  | some i => rt.rows.map fun r => r.getD i ""
  | none => rt.rows.map fun _ => ""

/-- A raw table after `_standardize_timestamps`: the original data plus the
values of the `timestamp` column when one exists (`none` means the table has
no timestamp column). -/
structure TimedTable where
  cols : List String
  rows : List (List String)
  tsVals : Option (List (Option Int))
deriving DecidableEq

/-- Column list after `df['timestamp'] = ...` assignment. -/
def addTimestampCol (cols : List String) : List String :=
  if cols.contains "timestamp" then cols else cols ++ ["timestamp"]

/-- `LogParser._standardize_timestamps` (lines 40–64): with a truthy, present
time column, `timestamp` receives its values parsed with
`pd.to_datetime(..., errors='coerce', utc=True)`; otherwise the fallback of
lines 61–64 creates a `timestamp` column holding `pd.Timestamp.now(tz=utc)`
(the reference time `now`) in every row. -/
def standardize_timestamps (rt : RawTable) (tcol : Option String) (now : Int) : TimedTable :=
  match tcol with
  | some c =>
    if c != "" && rt.cols.contains c then
      ⟨addTimestampCol rt.cols, rt.rows, some ((rawColumn rt c).map pd_to_datetime)⟩
    else
      ⟨addTimestampCol rt.cols, rt.rows, some (rt.rows.map fun _ => some now)⟩
  | none =>
    ⟨addTimestampCol rt.cols, rt.rows, some (rt.rows.map fun _ => some now)⟩

/-- The timestamp-handling step of `LogParser.parse_log_file`
(lines 190–192): find the time column, then standardize. -/
def normalize_time (rt : RawTable) (now : Int) : TimedTable :=
  standardize_timestamps rt (find_time_column rt.cols) now

/-- The candidate delimiters of parse_log_file line 132, in priority order. -/
def delimiter_candidates : List Char := [',', '\t', '|', ';', ' ']

/-- `line.count(delimiter)` for a one-character delimiter. -/
def char_count (s : String) (c : Char) : Nat :=
  s.toList.count c

/-- Average occurrence count of a delimiter across the sample lines
(line 137; `0` for an empty sample). -/
def avg_count (lines : List String) (c : Char) : ℚ :=
  if lines.isEmpty then 0
  else ((lines.map fun l => char_count l c).sum : ℚ) / (lines.length : ℚ)

/-- Python's `max(items, key=...)` over a non-empty list: strict improvement
moves the champion, so the first maximal element wins. -/
def firstMaxBySnd (b : Char × ℚ) : List (Char × ℚ) → Char × ℚ
  | [] => b
  | x :: xs => firstMaxBySnd (if x.2 > b.2 then x else b) xs

/-- Delimiter detection (parse_log_file lines 131–141): average counts per
candidate in priority order, then `max(..., key=count)`. -/
def detect_delimiter (lines : List String) : Char :=
  match delimiter_candidates.map fun c => (c, avg_count lines c) with
  | [] => ','
  | b :: xs => (firstMaxBySnd b xs).1

/-! ## `NLPQueryProcessor._extract_time_range` -/

/-- A Python `datetime`: UTC epoch seconds plus timezone-awareness. -/
structure PyDt where
  secs : Int
  aware : Bool
deriving DecidableEq

/-- The unit alternatives of the `last N unit` pattern. -/
inductive TimeUnit where
  | minute
  | hour
  | day
  | week
  | month
deriving DecidableEq

/-- Seconds of one unit; a month is `timedelta(days=30)` per
nlp_engine.py line 109. -/
def unit_seconds : TimeUnit → Int
  | TimeUnit.minute => 60
  | TimeUnit.hour => 3600
  | TimeUnit.day => 86400
  | TimeUnit.week => 604800
  | TimeUnit.month => 2592000

/-- `d - timedelta(seconds=s)`. -/
def dtSub (d : PyDt) (s : Int) : PyDt :=
  ⟨d.secs - s, d.aware⟩

/-- `d.astimezone(utc)` on an aware datetime: same instant, aware. -/
def astimezone_utc (d : PyDt) : PyDt :=
  ⟨d.secs, true⟩

/-- `now.replace(hour=0, minute=0, second=0, microsecond=0)` for a UTC
datetime. -/
def midnightOf (d : PyDt) : PyDt :=
  ⟨d.secs - d.secs % 86400, d.aware⟩

/-- Consume a literal character sequence. -/
def dropLit : List Char → List Char → Option (List Char)
  | [], l => some l
  | _ :: _, [] => none
  | p :: ps, c :: cs => if p == c then dropLit ps cs else none

/-- Split a maximal leading digit run. -/
def spanDigits : List Char → List Char × List Char
  | [] => ([], [])
  | c :: t =>
      if c.isDigit then
        let p := spanDigits t
        (c :: p.1, p.2)
      else ([], c :: t)

/-- Decimal value of a digit run. -/
def digitsToNat (l : List Char) : Nat :=
  l.foldl (fun a c => a * 10 + (c.toNat - 48)) 0

/-- The unit alternation, tried in the regex's declared order. -/
def unit_names : List (TimeUnit × String) :=
  [(TimeUnit.minute, "minute"), (TimeUnit.hour, "hour"), (TimeUnit.day, "day"),
   (TimeUnit.week, "week"), (TimeUnit.month, "month")]

/-- Match the `(minute|hour|day|week|month)` alternation as a prefix (the
trailing `s?` consumes nothing the extraction uses). -/
def matchUnit (l : List Char) : Option TimeUnit :=
  (unit_names.find? fun p => (dropLit p.2.toList l).isSome).map Prod.fst

/-- Try to match `last (\d+) (minute|hour|day|week|month)s?` at the current
position. -/
def tryLastAt (l : List Char) : Option (Nat × TimeUnit) :=
  match dropLit "last ".toList l with
  | none => none
  | some r1 =>
    let p := spanDigits r1
    if p.1.isEmpty then none
    else
      match p.2 with
      | ' ' :: r3 => (matchUnit r3).map fun u => (digitsToNat p.1, u)
      | _ => none

/-- `re.search` of the `last N unit` pattern: first matching start position. -/
def findLastPattern : List Char → Option (Nat × TimeUnit)
  | [] => none
  | c :: t =>
    match tryLastAt (c :: t) with
    | some res => some res
    | none => findLastPattern t

/-- The result dict of `_extract_time_range`; `stop` models the key "end". -/
structure TimeInfo where
  start : Option PyDt := none
  stop : Option PyDt := none
deriving DecidableEq

/-- `NLPQueryProcessor._extract_time_range` (nlp_engine.py lines 91–129) with
the reference time `now = datetime.now(utc)` made an explicit parameter:
`last N unit` wins first, then `today`, then `yesterday`, else the default
last-24-hours window. -/
def extract_time_range (query : String) (now : PyDt) : TimeInfo :=
  match findLastPattern query.toList with
  | some (n, u) =>
    ⟨some (astimezone_utc (dtSub now ((n : Int) * unit_seconds u))), some (astimezone_utc now)⟩
  | none =>
    if containsSub "today".toList query.toList then
      ⟨some (astimezone_utc (midnightOf now)), some (astimezone_utc now)⟩
    else if containsSub "yesterday".toList query.toList then
      ⟨some (astimezone_utc (dtSub (midnightOf now) 86400)), some (astimezone_utc (midnightOf now))⟩
    else
      ⟨some (astimezone_utc (dtSub now 86400)), some (astimezone_utc now)⟩

/-! ## `LogVisualizer.optimize_dataframe_for_visualization` -/

/-- Sort key of `sort_values('timestamp')`: `NaT` sorts last
(`na_position='last'`). -/
def tsKeyLe : Option Int → Option Int → Bool
  | some a, some b => decide (a ≤ b)
  | some _, none => true
  | none, some _ => false
  | none, none => true

/-- Timestamp of a row after the conversion `optimize` performs. -/
def optKey (r : Row) : Option Int :=
  match r.timestamp with
  | TsCell.parsed v => v
  | TsCell.raw _ => none

/-- Ordered insertion for the timestamp sort. -/
def tsInsert (r : Row) : List Row → List Row
  | [] => [r]
  | x :: xs => if tsKeyLe (optKey r) (optKey x) then r :: x :: xs else x :: tsInsert r xs

/-- `df.sort_values('timestamp')` as a deterministic (stable) sort; the
claims depend only on the row multiset and length. -/
def sort_by_timestamp (l : List Row) : List Row :=
  l.foldr tsInsert []

/-- `df.iloc[::k]`: every `k`-th row starting at index 0. -/
def takeEvery (k : Nat) : List Row → List Row
  | [] => []
  | x :: xs => x :: takeEvery k (xs.drop (k - 1))
termination_by l => l.length
decreasing_by simp_wf; have := List.length_drop (k - 1) xs; omega

/-- `LogVisualizer.optimize_dataframe_for_visualization`
(log_visualizer.py lines 14–30): pass-through under the threshold; above it,
time-ordered decimation with step `len(df) // max_points` when the
`timestamp` column exists and is not all-na; otherwise
`df.sample(max_points, random_state=42)` — a fixed-seed pseudorandom subset
of exactly `max_points` rows, modelled deterministically as the first
`max_points` rows (no claim depends on which subset the seed picks). -/
def optimize_dataframe_for_visualization (df : Table) (max_points : Nat) : Table :=
  if df.rows.length ≤ max_points then df
  else if df.flags.timestamp && df.rows.any fun r => !tsCellIsNa r.timestamp then
    let rows := df.rows.map fun r => { r with timestamp := coerceTsCell r.timestamp }
    { df with rows := takeEvery (df.rows.length / max_points) (sort_by_timestamp rows) }
  else
    { df with rows := df.rows.take max_points }

/-! ## Proof support: unfolding lemmas for `analyze` -/

/-- Bind on a successful `Except`. -/
theorem ebind_ok {ε α β : Type} (a : α) (k : α → Except ε β) :
    (Except.ok a >>= k) = k a := rfl

/-- Bind on a failed `Except`. -/
theorem ebind_err {ε α β : Type} (e : ε) (k : α → Except ε β) :
    (Except.error e >>= k) = Except.error e := rfl

/-- Map on a successful `Except`. -/
theorem emap_ok {ε α β : Type} (g : α → β) (a : α) :
    Except.map g (Except.ok a : Except ε α) = Except.ok (g a) := rfl

/-- Map on a failed `Except`. -/
theorem emap_err {ε α β : Type} (g : α → β) (e : ε) :
    Except.map g (Except.error e : Except ε α) = Except.error e := rfl

/-- The in-place time conversion does not change the schema. -/
theorem coerceTableTime_flags (t : Table) : (coerceTableTime t).flags = t.flags := by
  unfold coerceTableTime
  split <;> rfl

/-- The rows `analyze` actually filters: the copy's rows, time-converted in
place exactly when the time filter is active. -/
def coerceIf (t : Table) (s : SearchParams) : List Row :=
  if (time_column t.flags).isSome && s.time_range.isSome then (coerceTableTime t).rows
  else t.rows

/-- Unfolding of `analyze` through the heap: early empty return, else the
filter chain over the (possibly converted) copied rows. -/
theorem analyze_unfold (t : Table) (s : SearchParams) :
    analyze t s = if t.rows.isEmpty then Except.ok emptyTable
      else (analyzeRows t.flags s (coerceIf t s)).map fun rs => { flags := t.flags, rows := rs } := by
  by_cases he : t.rows.isEmpty
  · simp [analyze, analyzeHeap, heapGet, he]
  · by_cases hg : (time_column t.flags).isSome && s.time_range.isSome
    · simp [analyze, analyzeHeap, halloc, heapGet, heapSet, he, hg, coerceIf,
        coerceTableTime_flags, List.getD]
    · simp [analyze, analyzeHeap, halloc, heapGet, heapSet, he, hg, coerceIf, List.getD]

/-! ## Proof support: one predicate per filter stage -/

/-- Row predicate of the time stage (true when the stage is inactive). -/
def time_keep (f : ColFlags) (s : SearchParams) (r : Row) : Bool :=
  match time_column f, s.time_range with
  | some tc, some tr =>
    (match tr.start with
     | some st => tsGE tc st r
     | none => true)
    && (match tr.stop with
        | some en => tsLE tc en r
        | none => true)
  | _, _ => true

/-- Row predicate of the severity stage. -/
def sev_keep (f : ColFlags) (s : SearchParams) (r : Row) : Bool :=
  match s.severity with
  | none => true
  | some sv =>
    if f.severity then
      match sv with
      | SpecVal.one v => astype_str r.severity == v
      | SpecVal.many vs => vs.contains (astype_str r.severity)
    else true

/-- Row predicate of the action stage. -/
def act_keep (f : ColFlags) (s : SearchParams) (r : Row) : Bool :=
  match s.action with
  | none => true
  | some sv =>
    if f.action then
      match sv with
      | SpecVal.one v => strUpper (astype_str r.action) == strUpper v
      | SpecVal.many vs => (vs.map strUpper).contains (strUpper (astype_str r.action))
    else true

/-- Row predicate of the protocol stage. -/
def prot_keep (f : ColFlags) (s : SearchParams) (r : Row) : Bool :=
  match s.protocol with
  | none => true
  | some sv =>
    if f.protocol then
      match sv with
      | SpecVal.one v => strUpper (astype_str r.protocol) == strUpper v
      | SpecVal.many vs => (vs.map strUpper).contains (strUpper (astype_str r.protocol))
    else true

/-- Does a substring stage avoid raising?  Only an active regex stage with a
non-compiling pattern errors. -/
def c_ok (f : ColFlags) (s : SearchParams) (sf : SubField) : Bool :=
  match fieldPat sf s with
  | none => true
  | some p =>
    if (p != "") && fieldFlag sf f then
      if s.use_regex then (re_compile p (!s.case_sensitive)).isSome else true
    else true

/-- Row predicate of a substring stage when it does not raise. -/
def c_keep (f : ColFlags) (s : SearchParams) (sf : SubField) (r : Row) : Bool :=
  match fieldPat sf s with
  | none => true
  | some p =>
    if (p != "") && fieldFlag sf f then
      if s.use_regex then
        match re_compile p (!s.case_sensitive) with
        | some re => re_search re (astype_str (fieldVal sf r))
        | none => true
      else str_contains_literal (!s.case_sensitive) (astype_str (fieldVal sf r)) p
    else true

/-- Row predicate of a port stage. -/
def port_keep (f : ColFlags) (s : SearchParams) (isSrc : Bool) (r : Row) : Bool :=
  match if isSrc then s.src_port else s.dst_port with
  | none => true
  | some p =>
    if (p != "") && (if isSrc then f.src_port else f.dst_port) then
      astype_str (if isSrc then r.src_port else r.dst_port) == p
    else true

/-- Does the full-text stage avoid raising? -/
def ft_ok (s : SearchParams) : Bool :=
  match s.full_text with
  | none => true
  | some p =>
    if p != "" then
      if s.use_regex then (re_compile p (!s.case_sensitive)).isSome else true
    else true

/-- Row predicate of the full-text stage when it does not raise. -/
def ft_keep (f : ColFlags) (s : SearchParams) (r : Row) : Bool :=
  match s.full_text with
  | none => true
  | some p =>
    if p != "" then
      if s.use_regex then
        match re_compile p (!s.case_sensitive) with
        | some re => (stringCells f r).any fun c => re_search re c
        | none => true
      else (stringCells f r).any fun c => str_contains_literal (!s.case_sensitive) c p
    else true

/-- The time stage is the filter by its predicate. -/
theorem timeStage_eq (f : ColFlags) (s : SearchParams) (rows : List Row) :
    timeStage f s rows = rows.filter (time_keep f s) := by
  unfold timeStage time_keep
  cases htc : time_column f <;> cases htr : s.time_range <;> simp
  case some.some tc tr =>
    cases hst : tr.start <;> cases hen : tr.stop <;>
      simp [List.filter_filter, Bool.and_comm]

/-- The severity stage is the filter by its predicate. -/
theorem sevStage_eq (f : ColFlags) (s : SearchParams) (rows : List Row) :
    sevStage f s rows = rows.filter (sev_keep f s) := by
  unfold sevStage sev_keep
  cases hs : s.severity <;> simp
  case some sv =>
    cases hf : f.severity <;> cases sv <;> simp [hf]

/-- The action stage is the filter by its predicate. -/
theorem actStage_eq (f : ColFlags) (s : SearchParams) (rows : List Row) :
    actStage f s rows = rows.filter (act_keep f s) := by
  unfold actStage act_keep
  cases hs : s.action <;> simp
  case some sv =>
    cases hf : f.action <;> cases sv <;> simp [hf]

/-- The protocol stage is the filter by its predicate. -/
theorem protStage_eq (f : ColFlags) (s : SearchParams) (rows : List Row) :
    protStage f s rows = rows.filter (prot_keep f s) := by
  unfold protStage prot_keep
  cases hs : s.protocol <;> simp
  case some sv =>
    cases hf : f.protocol <;> cases sv <;> simp [hf]

/-- A substring stage either raises (active regex, bad pattern) or filters by
its predicate. -/
theorem containsStage_eq (f : ColFlags) (s : SearchParams) (sf : SubField) (rows : List Row) :
    containsStage f s sf rows =
      if c_ok f s sf then Except.ok (rows.filter (c_keep f s sf))
      else Except.error PyErr.regexError := by
  unfold containsStage c_ok c_keep
  cases hp : fieldPat sf s
  case none => simp
  case some p =>
    cases hg : (p != "") && fieldFlag sf f
    case false => simp [hg]
    case true =>
      cases hr : s.use_regex
      case false => simp [hg, hr]
      case true =>
        cases hc : re_compile p (!s.case_sensitive)
        case none => simp [hg, hr, hc]
        case some re => simp [hg, hr, hc]

/-- A port stage is the filter by its predicate. -/
theorem portStage_eq (f : ColFlags) (s : SearchParams) (isSrc : Bool) (rows : List Row) :
    portStage f s isSrc rows = rows.filter (port_keep f s isSrc) := by
  unfold portStage port_keep
  cases hp : (if isSrc then s.src_port else s.dst_port)
  case none => simp
  case some p =>
    cases hg : (p != "") && (if isSrc then f.src_port else f.dst_port)
    case false => simp [hg]
    case true => simp [hg]

/-- The full-text stage either raises or filters by its predicate. -/
theorem fullTextStage_eq (f : ColFlags) (s : SearchParams) (rows : List Row) :
    fullTextStage f s rows =
      if ft_ok s then Except.ok (rows.filter (ft_keep f s))
      else Except.error PyErr.regexError := by
  unfold fullTextStage ft_ok ft_keep
  cases hp : s.full_text
  case none => simp
  case some p =>
    cases hg : p != ""
    case false => simp [hg]
    case true =>
      cases hr : s.use_regex
      case false => simp [hg, hr]
      case true =>
        cases hc : re_compile p (!s.case_sensitive)
        case none => simp [hg, hr, hc]
        case some re => simp [hg, hr, hc]

/-- Does the whole chain avoid raising? -/
def all_ok (f : ColFlags) (s : SearchParams) : Bool :=
  c_ok f s SubField.mid && c_ok f s SubField.host && c_ok f s SubField.sip
  && c_ok f s SubField.dip && c_ok f s SubField.mtext && ft_ok s

/-- The filter chain of `analyze`: either one of the active regex stages
raises, or the result is the nested filters followed by the limit. -/
theorem analyzeRows_eq (f : ColFlags) (s : SearchParams) (rows : List Row) :
    analyzeRows f s rows =
      if all_ok f s then
        Except.ok (applyLimit s ((((((((((((rows.filter (time_keep f s)).filter (sev_keep f s)).filter (act_keep f s)).filter (prot_keep f s)).filter (c_keep f s SubField.mid)).filter (c_keep f s SubField.host)).filter (c_keep f s SubField.sip)).filter (c_keep f s SubField.dip)).filter (port_keep f s true)).filter (port_keep f s false)).filter (c_keep f s SubField.mtext)).filter (ft_keep f s)))
      else Except.error PyErr.regexError := by
  simp only [analyzeRows, timeStage_eq, sevStage_eq, actStage_eq, protStage_eq,
    containsStage_eq, portStage_eq, fullTextStage_eq]
  cases h1 : c_ok f s SubField.mid
  case false => simp [all_ok, h1, ebind_err]
  case true =>
    cases h2 : c_ok f s SubField.host
    case false => simp [all_ok, h1, h2, ebind_ok, ebind_err]
    case true =>
      cases h3 : c_ok f s SubField.sip
      case false => simp [all_ok, h1, h2, h3, ebind_ok, ebind_err]
      case true =>
        cases h4 : c_ok f s SubField.dip
        case false => simp [all_ok, h1, h2, h3, h4, ebind_ok, ebind_err]
        case true =>
          cases h5 : c_ok f s SubField.mtext
          case false => simp [all_ok, h1, h2, h3, h4, h5, ebind_ok, ebind_err]
          case true =>
            cases h6 : ft_ok s
            case false => simp [all_ok, h1, h2, h3, h4, h5, h6, ebind_ok, ebind_err]
            case true => simp [all_ok, h1, h2, h3, h4, h5, h6, ebind_ok, ebind_err, Bool.and_assoc]

/-! ## Claim C1: invalid regex pattern and the "literal fallback" -/

/-- The failing input of claim C1: a table with a `message_id` column and a
filter using the invalid pattern "[" with `use_regex=true`. -/
def c1_table : Table :=
  { flags := { message_id := true }, rows := [{ message_id := some "abc" }] }

/-- The filter spec of claim C1. -/
def c1_params : SearchParams :=
  { message_id := some "[", use_regex := true }

/-- C1: the claim says `analyze` completes without raising on an invalid
regex pattern and falls back to a literal substring match.  On the code the
`except re.error` fallback calls `str.contains` without `regex=False`, which
recompiles the invalid pattern, so `re.error` is raised out of `analyze`:
evaluated at the failing input, the model errors instead of returning. -/
theorem claim_C1_invalid_regex_raises :
    analyze c1_table c1_params = Except.error PyErr.regexError
      ∧ re_compile "[" true = none := by
  constructor
  · rfl
  · rfl

/-! ## Claim C10: `analyze` leaves the caller's table unchanged -/

/-- C10: for every input table and every filter spec, `analyze` operates on a
copy: after the call, the caller's heap object (id 0) is exactly the input
table; the in-place time-column conversion hits only the copy (id 1). -/
theorem claim_C10_input_table_unchanged (t : Table) (s : SearchParams) :
    heapGet (analyzeHeap [t] 0 s).1 0 = t := by
  by_cases he : t.rows.isEmpty
  · simp [analyzeHeap, heapGet, he]
  · by_cases hg : (time_column t.flags).isSome && s.time_range.isSome
    · simp [analyzeHeap, halloc, heapGet, heapSet, he, hg, List.set]
    · simp [analyzeHeap, halloc, heapGet, heapSet, he, hg]

/-! ## Claim C2: behaviour when no time column is detected -/

/-- A raw table with a single column named "alpha", which no time-column
heuristic matches. -/
def c2_raw : RawTable := ⟨["alpha"], [["x"]]⟩

/-- C2 counterexample: the claim says that with no detected time column the
normalized table has no timestamp column at all.  On the code,
`_standardize_timestamps` (log_parser.py lines 61–64) creates a `timestamp`
column holding the current time: at a concrete no-time-column input the
result does have a timestamp column, filled with `now`. -/
theorem claim_C2_counterexample :
    find_time_column c2_raw.cols = none
      ∧ (normalize_time c2_raw 1000).cols.contains "timestamp" = true
      ∧ (normalize_time c2_raw 1000).tsVals = some [some 1000] := by
  refine ⟨rfl, rfl, rfl⟩

/-- C2 as amended: when no time column is detected, `parse_log_file` does
not leave the table without time data — it creates a `timestamp` column and
fills every row with the current time (the fallback of lines 61–64). -/
theorem claim_C2_amended (rt : RawTable) (now : Int)
    (h : find_time_column rt.cols = none) :
    (normalize_time rt now).cols.contains "timestamp" = true
      ∧ (normalize_time rt now).tsVals = some (rt.rows.map fun _ => some now) := by
  unfold normalize_time standardize_timestamps
  rw [h]
  constructor
  · unfold addTimestampCol
    by_cases hm : "timestamp" ∈ rt.cols
    · simp [hm]
    · simp [hm]
  · rfl

/-- Witness for C2's amended claim at a concrete input. -/
theorem claim_C2_amended_witness :
    find_time_column c2_raw.cols = none
      ∧ ((normalize_time c2_raw 1000).cols.contains "timestamp" = true
        ∧ (normalize_time c2_raw 1000).tsVals = some (c2_raw.rows.map fun _ => some 1000)) :=
  ⟨rfl, claim_C2_amended c2_raw 1000 rfl⟩

/-! ## Claim C3: summarizing an empty row set -/

/-- An empty table carrying time and categorical columns, to exercise the
guards of `generate_summary`. -/
def c3_table : Table :=
  { flags := { timestamp := true, action := true, protocol := true }, rows := [] }

/-- C3 counterexample: the claim says the summary of an empty row set has
`time_span_hours` equal to 0.  On the code the time block is guarded by
`not results[time_column].isna().all()`, which is vacuously false on zero
rows, so the key is never set: the model returns no `time_span_hours` entry
rather than `0`. -/
theorem claim_C3_counterexample :
    (generate_summary c3_table).time_span_hours ≠ some 0
      ∧ (generate_summary c3_table).total_logs = 0
      ∧ (generate_summary c3_table).distributions = [] := by
  refine ⟨by decide, rfl, rfl⟩

/-- C3 as amended: summarizing an empty row set returns, without error, a
summary whose `total_logs` is 0 and whose per-field distributions are empty;
the time fields (`earliest_log`, `latest_log`, `time_span_hours`) are absent
from the summary, not zero. -/
theorem claim_C3_amended (t : Table) (h : t.rows = []) :
    generate_summary t =
      { total_logs := 0, earliest_log := none, latest_log := none,
        time_span_hours := none, distributions := [] } := by
  obtain ⟨fl, rows⟩ := t
  simp only at h
  subst h
  unfold generate_summary timeColCells
  cases htc : time_column fl <;>
    by_cases ha : fl.action <;> by_cases hp : fl.protocol <;> by_cases hs : fl.severity <;>
      by_cases hh : fl.hostname <;> by_cases hm : fl.message_id <;>
        simp [distFor, strColVals, ha, hp, hs, hh, hm]

/-- Witness for C3's amended claim at a concrete empty table. -/
theorem claim_C3_amended_witness :
    c3_table.rows = []
      ∧ generate_summary c3_table =
        { total_logs := 0, earliest_log := none, latest_log := none,
          time_span_hours := none, distributions := [] } :=
  ⟨rfl, claim_C3_amended c3_table rfl⟩

/-! ## Claim C8: `last N unit` time ranges -/

/-- C8: whenever the query matches `last (\d+) (minute|hour|day|week|month)s?`
with amount `n` and unit `u`, the extracted range at aware reference time `t`
is exactly `[t - n·u, t]`, and both endpoints are timezone-aware (UTC). -/
theorem claim_C8_last_n_unit (q : String) (t : Int) (n : Nat) (u : TimeUnit)
    (h : findLastPattern q.toList = some (n, u)) :
    extract_time_range q ⟨t, true⟩ =
      ⟨some ⟨t - (n : Int) * unit_seconds u, true⟩, some ⟨t, true⟩⟩ := by
  unfold extract_time_range
  rw [h]
  rfl

/-- Witness for C8 at the spec's own scenario: `parse("last 2 hours")` at
reference time `T = 100000` gives `start = T - 7200`, `end = T`, both
UTC-aware. -/
theorem claim_C8_witness :
    findLastPattern "last 2 hours".toList = some (2, TimeUnit.hour)
      ∧ extract_time_range "last 2 hours" ⟨100000, true⟩ =
        ⟨some ⟨92800, true⟩, some ⟨100000, true⟩⟩ := by
  constructor
  · rfl
  · have h := claim_C8_last_n_unit "last 2 hours" 100000 2 TimeUnit.hour rfl
    simpa [unit_seconds] using h


/-! ## Claim C6: delimiter detection -/

/-- `firstMaxBySnd` run over a candidate list keyed by `g`. -/
def fmRun (g : Char → ℚ) (b : Char) (cs : List Char) : Char × ℚ :=
  firstMaxBySnd (b, g b) (cs.map fun c => (c, g c))

/-- Full characterization of Python's `max(..., key=...)` over a keyed
candidate list: the result carries its own key, is a maximum, and every
candidate strictly before it in the list has a strictly smaller key (the
first maximal candidate wins). -/
theorem fmRun_spec (g : Char → ℚ) : ∀ (cs : List Char) (b : Char),
    (fmRun g b cs).2 = g (fmRun g b cs).1
    ∧ g b ≤ (fmRun g b cs).2
    ∧ (∀ c ∈ cs, g c ≤ (fmRun g b cs).2)
    ∧ ∃ pre suf, b :: cs = pre ++ (fmRun g b cs).1 :: suf
        ∧ ∀ c ∈ pre, g c < g (fmRun g b cs).1 := by
  intro cs
  induction cs with
  | nil =>
    intro b
    exact ⟨rfl, le_refl _, by simp, ⟨[], [], rfl, by simp⟩⟩
  | cons c cs ih =>
    intro b
    have hstep : fmRun g b (c :: cs) = if g c > g b then fmRun g c cs else fmRun g b cs := by
      unfold fmRun
      simp only [List.map_cons, firstMaxBySnd]
      by_cases hgt : g c > g b
      · simp [hgt]
      · simp [hgt]
    by_cases hgt : g c > g b
    · rw [hstep, if_pos hgt]
      obtain ⟨h1, h2, h3, pre, suf, h4, h5⟩ := ih c
      refine ⟨h1, le_of_lt (lt_of_lt_of_le hgt h2), ?_, b :: pre, suf, ?_, ?_⟩
      · intro x hx
        rcases List.mem_cons.mp hx with hx | hx
        · rw [hx]; exact h2
        · exact h3 x hx
      · simpa using congrArg (List.cons b) h4
      · intro x hx
        rcases List.mem_cons.mp hx with hx | hx
        · rw [hx, ← h1]; exact lt_of_lt_of_le hgt h2
        · exact h5 x hx
    · rw [hstep, if_neg hgt]
      push_neg at hgt
      obtain ⟨h1, h2, h3, pre, suf, h4, h5⟩ := ih b
      refine ⟨h1, h2, ?_, ?_⟩
      · intro x hx
        rcases List.mem_cons.mp hx with hx | hx
        · rw [hx]; exact le_trans hgt h2
        · exact h3 x hx
      · cases pre with
        | nil =>
          simp only [List.nil_append, List.cons.injEq] at h4
          exact ⟨[], c :: cs, by simp [← h4.1], by simp⟩
        | cons hd tl =>
          simp only [List.cons_append, List.cons.injEq] at h4
          obtain ⟨hb, hcs⟩ := h4
          have hhd : g b < g (fmRun g b cs).1 := by
            have hx5 := h5 hd (List.mem_cons_self hd tl)
            rw [← hb] at hx5
            exact hx5
          refine ⟨b :: c :: tl, suf, ?_, ?_⟩
          · simp only [List.cons_append]
            exact congrArg (List.cons b) (congrArg (List.cons c) hcs)
          · intro x hx
            rcases List.mem_cons.mp hx with hx | hx
            · rw [hx]; exact hhd
            · rcases List.mem_cons.mp hx with hx | hx
              · rw [hx]; exact lt_of_le_of_lt hgt hhd
              · exact h5 x (List.mem_cons_of_mem hd hx)

/-- C6: for every non-empty list of sample lines, the detected delimiter has
the maximal average occurrence count among the candidates, and every
candidate strictly earlier in the priority order (comma, tab, pipe,
semicolon, space) has a strictly smaller average — ties break to the
earliest candidate. -/
theorem claim_C6_delimiter_argmax (lines : List String) (h : lines ≠ []) :
    (∀ c ∈ delimiter_candidates,
        avg_count lines c ≤ avg_count lines (detect_delimiter lines))
    ∧ ∃ pre suf, delimiter_candidates = pre ++ detect_delimiter lines :: suf
        ∧ ∀ c ∈ pre, avg_count lines c < avg_count lines (detect_delimiter lines) := by
  have hdet : detect_delimiter lines =
      (fmRun (avg_count lines) ',' ['\t', '|', ';', ' ']).1 := rfl
  obtain ⟨h1, h2, h3, pre, suf, h4, h5⟩ :=
    fmRun_spec (avg_count lines) ['\t', '|', ';', ' '] ','
  rw [hdet]
  constructor
  · intro c hc
    rw [← h1]
    rcases List.mem_cons.mp hc with hc | hc
    · rw [hc]; exact h2
    · exact h3 c hc
  · exact ⟨pre, suf, h4, h5⟩

/-- Witness for C6 at a concrete sample: two comma-separated lines. -/
theorem claim_C6_witness :
    (["a,b,c", "d,e,f"] : List String) ≠ []
    ∧ ((∀ c ∈ delimiter_candidates,
          avg_count ["a,b,c", "d,e,f"] c
            ≤ avg_count ["a,b,c", "d,e,f"] (detect_delimiter ["a,b,c", "d,e,f"]))
      ∧ ∃ pre suf, delimiter_candidates = pre ++ detect_delimiter ["a,b,c", "d,e,f"] :: suf
          ∧ ∀ c ∈ pre, avg_count ["a,b,c", "d,e,f"] c
              < avg_count ["a,b,c", "d,e,f"] (detect_delimiter ["a,b,c", "d,e,f"])) :=
  ⟨by simp, claim_C6_delimiter_argmax ["a,b,c", "d,e,f"] (by simp)⟩


/-! ## Claim C9: downsampling a 20,001-row result -/

/-- Ordered insertion grows the length by one. -/
theorem tsInsert_length (r : Row) (l : List Row) :
    (tsInsert r l).length = l.length + 1 := by
  induction l with
  | nil => rfl
  | cons x xs ih =>
    unfold tsInsert
    by_cases hc : tsKeyLe (optKey r) (optKey x)
    · simp [hc]
    · simp [hc, ih]

/-- Sorting preserves the length. -/
theorem sort_by_timestamp_length (l : List Row) :
    (sort_by_timestamp l).length = l.length := by
  unfold sort_by_timestamp
  induction l with
  | nil => rfl
  | cons x xs ih => simp [List.foldr_cons, tsInsert_length, ih]

/-- Length of `iloc[::k]`: the ceiling of `length / k`, which exceeds
`length / k * k` coverage — in particular it can exceed the downsampling
target. -/
theorem takeEvery_length (k : Nat) (hk : 1 ≤ k) :
    ∀ (l : List Row), (takeEvery k l).length = (l.length + k - 1) / k := by
  have H : ∀ n (l : List Row), l.length ≤ n →
      (takeEvery k l).length = (l.length + k - 1) / k := by
    intro n
    induction n with
    | zero =>
      intro l hl
      have hnil : l = [] := List.eq_nil_of_length_eq_zero (Nat.le_zero.mp hl)
      subst hnil
      simp only [takeEvery, List.length_nil]
      rw [Nat.div_eq_of_lt (by omega)]
    | succ n ih =>
      intro l hl
      cases l with
      | nil =>
        simp only [takeEvery, List.length_nil]
        rw [Nat.div_eq_of_lt (by omega)]
      | cons x xs =>
        simp only [takeEvery, List.length_cons]
        simp only [List.length_cons] at hl
        rw [ih (xs.drop (k - 1)) (by simp only [List.length_drop]; omega)]
        simp only [List.length_drop]
        rcases Nat.lt_or_ge xs.length (k - 1) with hlt | hge
        · have h1 : xs.length - (k - 1) = 0 := by omega
          rw [h1]
          rw [Nat.div_eq_of_lt (by omega)]
          have h3 : xs.length + 1 + k - 1 = xs.length + k := by omega
          rw [h3, Nat.add_div_right _ (by omega), Nat.div_eq_of_lt (by omega)]
        · have h1 : xs.length - (k - 1) + k - 1 = xs.length := by omega
          rw [h1]
          have h3 : xs.length + 1 + k - 1 = xs.length + k := by omega
          rw [h3, Nat.add_div_right _ (by omega)]
  exact fun l => H l.length l le_rfl

/-- One row of the 20,001-row scenario table. -/
def c9_row (i : Nat) : Row :=
  { timestamp := TsCell.parsed (some (i : Int)) }

/-- The 20,001 rows of the scenario, with a fully populated timestamp
column. -/
def c9_rows : List Row :=
  (List.range 20001).map c9_row

/-- The 20,001-row table of the spec's scenario. -/
def c9_table : Table :=
  { flags := { timestamp := true }, rows := c9_rows }

/-- The scenario table has 20,001 rows. -/
theorem c9_table_length : c9_table.rows.length = 20001 := by
  simp only [c9_table, c9_rows]
  rw [List.length_map, List.length_range]

/-- The scenario table's timestamp column is not all-na. -/
theorem c9_table_any :
    (c9_table.rows.any fun r => !tsCellIsNa r.timestamp) = true := by
  rw [List.any_eq_true]
  refine ⟨c9_row 0, ?_, rfl⟩
  simp only [c9_table, c9_rows, List.mem_map, List.mem_range]
  exact ⟨0, by omega, rfl⟩

/-- The downsampled scenario table has exactly 5001 rows: the decimation step
is `20001 // 5000 = 4` and `ceil(20001 / 4) = 5001`. -/
theorem c9_optimized_length :
    (optimize_dataframe_for_visualization c9_table 5000).rows.length = 5001 := by
  unfold optimize_dataframe_for_visualization
  rw [c9_table_length]
  rw [if_neg (by norm_num)]
  rw [if_pos (by rw [c9_table_any]; rfl)]
  simp only
  rw [takeEvery_length _ (by norm_num)]
  rw [sort_by_timestamp_length, List.length_map, c9_table_length]

/-- C9 counterexample: the claim says the trend raw-point payload holds at
most 5000 points for 20,001 rows at threshold 5000.  The decimation
`iloc[::len(df)//max_points]` keeps `ceil(20001/4) = 5001` rows, exceeding
the threshold by one. -/
theorem claim_C9_counterexample :
    ¬ ((optimize_dataframe_for_visualization c9_table 5000).rows.length ≤ 5000) := by
  rw [c9_optimized_length]
  norm_num

/-- C9 as amended: for the 20,001-row scenario at threshold 5000 the trend
raw-point payload holds exactly 5001 points (at most 5001, not 5000), while
the summary over the same rows still reports `total_logs = 20001` —
downsampling never alters the already-computed aggregates. -/
theorem claim_C9_amended :
    (optimize_dataframe_for_visualization c9_table 5000).rows.length = 5001
      ∧ (generate_summary c9_table).total_logs = 20001 := by
  refine ⟨c9_optimized_length, ?_⟩
  have htl : (generate_summary c9_table).total_logs = c9_table.rows.length := by
    simp only [generate_summary]
  rw [htl, c9_table_length]


/-! ## Claim C4: exact-match categorical predicates -/

/-- Case sensitivity as the specification words it: case-insensitive string
equality unless `case_sensitive` is set. -/
def ciEqStr (cs : Bool) (a b : String) : Bool :=
  if cs then a = b else strLower a = strLower b

/-- Modelled from the spec's words for claim C4 (not from the code): each
exact-match categorical predicate (action, protocol, severity) selects rows
by case-insensitive string equality with the spec value (membership for a
list), unless `case_sensitive` is explicitly set.  Compared against the
code's own behaviour below. -/
def spec_cat_keep_ci (s : SearchParams) (r : Row) : Bool :=
  (match s.severity with
   | none => true
   | some (SpecVal.one v) => ciEqStr s.case_sensitive (astype_str r.severity) v
   | some (SpecVal.many vs) => vs.any fun v => ciEqStr s.case_sensitive (astype_str r.severity) v)
  && (match s.action with
      | none => true
      | some (SpecVal.one v) => ciEqStr s.case_sensitive (astype_str r.action) v
      | some (SpecVal.many vs) => vs.any fun v => ciEqStr s.case_sensitive (astype_str r.action) v)
  && (match s.protocol with
      | none => true
      | some (SpecVal.one v) => ciEqStr s.case_sensitive (astype_str r.protocol) v
      | some (SpecVal.many vs) => vs.any fun v => ciEqStr s.case_sensitive (astype_str r.protocol) v)

/-- The counterexample table of C4: one row with severity "HIGH". -/
def c4_table : Table :=
  { flags := { severity := true }, rows := [{ severity := some "HIGH" }] }

/-- The counterexample spec of C4: severity filter "high", `case_sensitive`
left at its default `false`. -/
def c4_params : SearchParams :=
  { severity := some (SpecVal.one "high") }

/-- C4 counterexample: the claim's case-insensitive severity predicate keeps
the row (severity "HIGH" vs filter "high"), but `analyze` compares severity
with `astype(str) ==` — no case folding — and drops it. -/
theorem claim_C4_counterexample :
    (analyze c4_table c4_params).map Table.rows = Except.ok []
      ∧ c4_table.rows.filter (spec_cat_keep_ci c4_params) = c4_table.rows
      ∧ c4_table.rows ≠ [] := by
  refine ⟨by decide, by decide, by decide⟩

/-- A spec that activates only the three categorical filters. -/
abbrev onlyCatSpec (s : SearchParams) : Prop :=
  s.time_range = none ∧ s.message_id = none ∧ s.hostname = none ∧ s.src_ip = none
    ∧ s.dst_ip = none ∧ s.src_port = none ∧ s.dst_port = none ∧ s.message_text = none
    ∧ s.full_text = none ∧ s.results_limit = none

/-- The categorical row predicate as the code implements it: severity by
exact (case-sensitive) string equality/membership; action and protocol by
upper-cased (case-insensitive) equality/membership, with `case_sensitive`
ignored by all three. -/
def cat_keep (f : ColFlags) (s : SearchParams) (r : Row) : Bool :=
  sev_keep f s r && act_keep f s r && prot_keep f s r

/-- C4 as amended: for every table and spec activating only the categorical
filters, `analyze` keeps exactly the rows passing `cat_keep`: severity is
compared case-sensitively, action and protocol case-insensitively, and the
`case_sensitive` flag has no effect on any of the three. -/
theorem claim_C4_amended (t : Table) (s : SearchParams) (h : onlyCatSpec s) :
    (analyze t s).map Table.rows = Except.ok (t.rows.filter (cat_keep t.flags s)) := by
  obtain ⟨htr, hmid, hhost, hsip, hdip, hsp, hdp, hmt, hft, hrl⟩ := h
  rw [analyze_unfold]
  by_cases he : t.rows.isEmpty
  · rw [if_pos he]
    rw [List.isEmpty_iff.mp he]
    rw [emap_ok]
    simp [emptyTable]
  · rw [if_neg he, analyzeRows_eq]
    have hok : all_ok t.flags s = true := by
      simp [all_ok, c_ok, ft_ok, fieldPat, hmid, hhost, hsip, hdip, hmt, hft]
    rw [if_pos hok]
    simp [emap_ok, coerceIf, htr, applyLimit, hrl, time_keep, c_keep, port_keep, ft_keep,
      fieldPat, hmid, hhost, hsip, hdip, hsp, hdp, hmt, hft, List.filter_filter]
    apply List.filter_congr
    intro a _
    unfold cat_keep
    cases sev_keep t.flags s a <;> cases act_keep t.flags s a <;>
      cases prot_keep t.flags s a <;> simp

/-- The witness table of C4's amended claim. -/
def c4w_table : Table :=
  { flags := { action := true },
    rows := [{ action := some "DENY" }, { action := some "allow" }] }

/-- The witness spec of C4's amended claim: an action filter with
`case_sensitive = true`, which the code ignores. -/
def c4w_params : SearchParams :=
  { action := some (SpecVal.one "deny"), case_sensitive := true }

/-- Witness for C4's amended claim: an action filter "deny" with
`case_sensitive = true` still matches the upper-cased row value "DENY". -/
theorem claim_C4_amended_witness :
    onlyCatSpec c4w_params
      ∧ (analyze c4w_table c4w_params).map Table.rows
        = Except.ok (c4w_table.rows.filter (cat_keep c4w_table.flags c4w_params)) :=
  ⟨by decide, claim_C4_amended c4w_table c4w_params (by decide)⟩

/-! ## Claim C5: the time predicate -/

/-- A spec that activates at most the time filter. -/
abbrev onlyTimeSpec (s : SearchParams) : Prop :=
  s.severity = none ∧ s.action = none ∧ s.protocol = none ∧ s.message_id = none
    ∧ s.hostname = none ∧ s.src_ip = none ∧ s.dst_ip = none ∧ s.src_port = none
    ∧ s.dst_port = none ∧ s.message_text = none ∧ s.full_text = none
    ∧ s.results_limit = none

/-- Do all rows carry an already-converted (datetime-dtype) timestamp cell? -/
def rows_all_parsed (t : Table) : Bool :=
  t.rows.all fun r =>
    match r.timestamp with
    | TsCell.parsed _ => true
    | TsCell.raw _ => false

/-- The time predicate in the claim's words: keep a row exactly when its
timestamp `v` satisfies `start ≤ v` and `v ≤ end` (each bound checked only
when present); a null timestamp is kept exactly when no bound is active. -/
def spec_time_keep (s : SearchParams) (r : Row) : Bool :=
  match s.time_range with
  | none => true
  | some tr =>
    match r.timestamp with
    | TsCell.parsed (some v) =>
        (match tr.start with
         | some st => decide (st ≤ v)
         | none => true)
        && (match tr.stop with
            | some en => decide (v ≤ en)
            | none => true)
    | TsCell.parsed none => !(tr.start.isSome || tr.stop.isSome)
    | TsCell.raw _ => false

/-- C5: for every table with a (datetime-dtype) timestamp column and every
spec activating only the time filter, `analyze` keeps exactly the rows
passing the claim's inclusive-start, inclusive-end predicate, excluding
null timestamps exactly when a bound is active. -/
theorem claim_C5_time_filter (t : Table) (s : SearchParams) (h : onlyTimeSpec s)
    (hts : t.flags.timestamp = true) (hp : rows_all_parsed t = true) :
    (analyze t s).map Table.rows = Except.ok (t.rows.filter (spec_time_keep s)) := by
  obtain ⟨hsev, hact, hprot, hmid, hhost, hsip, hdip, hsp, hdp, hmt, hft, hrl⟩ := h
  rw [analyze_unfold]
  by_cases he : t.rows.isEmpty
  · rw [if_pos he]
    rw [List.isEmpty_iff.mp he]
    rw [emap_ok]
    simp [emptyTable]
  · rw [if_neg he, analyzeRows_eq]
    have hok : all_ok t.flags s = true := by
      simp [all_ok, c_ok, ft_ok, fieldPat, hmid, hhost, hsip, hdip, hmt, hft]
    rw [if_pos hok]
    have hparsed : ∀ r ∈ t.rows, ∃ v, r.timestamp = TsCell.parsed v := by
      intro r hr
      have hx := List.all_eq_true.mp hp r hr
      cases hcell : r.timestamp with
      | parsed v => exact ⟨v, rfl⟩
      | raw s2 => rw [hcell] at hx; simp at hx
    cases htr : s.time_range with
    | none =>
      simp [emap_ok, coerceIf, htr, applyLimit, hrl, time_keep, sev_keep, act_keep,
        prot_keep, c_keep, port_keep, ft_keep, fieldPat, hsev, hact, hprot, hmid, hhost,
        hsip, hdip, hsp, hdp, hmt, hft]
      exact (List.filter_eq_self.mpr fun a _ => by simp [spec_time_keep, htr]).symm
    | some tr =>
      have hco : coerceIf t s = t.rows := by
        unfold coerceIf
        rw [if_pos (by simp [time_column, hts, htr])]
        unfold coerceTableTime
        rw [show time_column t.flags = some TimeCol.tsCol by simp [time_column, hts]]
        simp only
        have hid : ∀ r ∈ t.rows, coerceRowAt TimeCol.tsCol r = r := by
          intro r hr
          obtain ⟨v, hcell⟩ := hparsed r hr
          cases r with
          | mk ts dt sev act prot mid host sip dip sp dp msg ex =>
            simp only at hcell
            subst hcell
            rfl
        rw [List.map_congr_left hid]
        simp
      rw [hco]
      simp only [applyLimit, hrl]
      simp [emap_ok, sev_keep, act_keep, prot_keep, c_keep, port_keep, ft_keep, fieldPat,
        hsev, hact, hprot, hmid, hhost, hsip, hdip, hsp, hdp, hmt, hft]
      apply List.filter_congr
      intro r hr
      obtain ⟨v, hcell⟩ := hparsed r hr
      cases v with
      | none =>
        simp [time_keep, spec_time_keep, time_column, hts, htr, tsGE, tsLE, tsValueAt,
          cellAt, hcell]
        cases tr.start <;> cases tr.stop <;> simp
      | some v0 =>
        simp [time_keep, spec_time_keep, time_column, hts, htr, tsGE, tsLE, tsValueAt,
          cellAt, hcell]

/-- The witness table of C5: rows before the range, inside it, and with a
null timestamp. -/
def c5_table : Table :=
  { flags := { timestamp := true },
    rows := [{ timestamp := TsCell.parsed (some 5) },
             { timestamp := TsCell.parsed (some 15) },
             { timestamp := TsCell.parsed none }] }

/-- The witness spec of C5: the inclusive range `[10, 20]`. -/
def c5_params : SearchParams :=
  { time_range := some { start := some 10, stop := some 20 } }

/-- Witness for C5 at a concrete input. -/
theorem claim_C5_witness :
    onlyTimeSpec c5_params
      ∧ c5_table.flags.timestamp = true
      ∧ rows_all_parsed c5_table = true
      ∧ (analyze c5_table c5_params).map Table.rows
        = Except.ok (c5_table.rows.filter (spec_time_keep c5_params)) :=
  ⟨by decide, by decide, by decide,
   claim_C5_time_filter c5_table c5_params (by decide) (by decide) (by decide)⟩

/-! ## Claim C7: idempotence of filtering -/

/-- The full filter chain of `analyze` as one composed term, in source
order. -/
def filter_chain (f : ColFlags) (s : SearchParams) (rows : List Row) : List Row :=
  (((((((((((rows.filter (time_keep f s)).filter (sev_keep f s)).filter (act_keep f s)).filter (prot_keep f s)).filter (c_keep f s SubField.mid)).filter (c_keep f s SubField.host)).filter (c_keep f s SubField.sip)).filter (c_keep f s SubField.dip)).filter (port_keep f s true)).filter (port_keep f s false)).filter (c_keep f s SubField.mtext)).filter (ft_keep f s)

/-- The conjunction of all twelve row predicates. -/
def chain_pred (f : ColFlags) (s : SearchParams) (x : Row) : Bool :=
  time_keep f s x && sev_keep f s x && act_keep f s x && prot_keep f s x
    && c_keep f s SubField.mid x && c_keep f s SubField.host x && c_keep f s SubField.sip x
    && c_keep f s SubField.dip x && port_keep f s true x && port_keep f s false x
    && c_keep f s SubField.mtext x && ft_keep f s x

/-- The nested filters are one filter by the conjoined predicate. -/
theorem filter_chain_eq_filter (f : ColFlags) (s : SearchParams) (rows : List Row) :
    filter_chain f s rows = rows.filter (chain_pred f s) := by
  unfold filter_chain
  simp only [List.filter_filter]
  apply List.filter_congr
  intro a _
  unfold chain_pred
  simp [Bool.and_comm, Bool.and_left_comm, Bool.and_assoc]

/-- `analyzeRows` in single-filter form. -/
theorem analyzeRows_filter (f : ColFlags) (s : SearchParams) (rows : List Row) :
    analyzeRows f s rows =
      if all_ok f s then Except.ok (applyLimit s (rows.filter (chain_pred f s)))
      else Except.error PyErr.regexError := by
  rw [analyzeRows_eq]
  rw [show ((((((((((((rows.filter (time_keep f s)).filter (sev_keep f s)).filter (act_keep f s)).filter (prot_keep f s)).filter (c_keep f s SubField.mid)).filter (c_keep f s SubField.host)).filter (c_keep f s SubField.sip)).filter (c_keep f s SubField.dip)).filter (port_keep f s true)).filter (port_keep f s false)).filter (c_keep f s SubField.mtext)).filter (ft_keep f s))
    = filter_chain f s rows from rfl]
  rw [filter_chain_eq_filter]

/-- The limit step only discards rows. -/
theorem applyLimit_subset (s : SearchParams) (l : List Row) : applyLimit s l ⊆ l := by
  unfold applyLimit
  cases s.results_limit with
  | none => exact fun x hx => hx
  | some n =>
    show (if l.length > n then l.take n else l) ⊆ l
    by_cases hl : l.length > n
    · rw [if_pos hl]; exact List.take_subset n l
    · rw [if_neg hl]; exact fun x hx => hx

/-- The limit step is idempotent. -/
theorem applyLimit_idem (s : SearchParams) (l : List Row) :
    applyLimit s (applyLimit s l) = applyLimit s l := by
  unfold applyLimit
  cases s.results_limit with
  | none => rfl
  | some n =>
    show (if (if l.length > n then l.take n else l).length > n
          then (if l.length > n then l.take n else l).take n
          else (if l.length > n then l.take n else l))
        = (if l.length > n then l.take n else l)
    by_cases hl : l.length > n
    · simp only [if_pos hl]
      rw [if_neg (by rw [List.length_take]; exact not_lt.mpr (Nat.min_le_left n l.length))]
    · simp only [if_neg hl]

/-- Converting a time cell twice equals converting it once. -/
theorem coerceTsCell_idem (c : TsCell) : coerceTsCell (coerceTsCell c) = coerceTsCell c := by
  cases c <;> rfl

/-- Converting a row's time column twice equals converting it once. -/
theorem coerceRowAt_idem (tc : TimeCol) (r : Row) :
    coerceRowAt tc (coerceRowAt tc r) = coerceRowAt tc r := by
  cases tc <;> simp [coerceRowAt, coerceTsCell_idem]

/-- C7: filtering is idempotent.  Whenever `analyze t s` succeeds with result
`r`, running the same spec over `r` succeeds and returns exactly the same
row set. -/
theorem claim_C7_idempotent (t : Table) (s : SearchParams) (r : Table)
    (h : analyze t s = Except.ok r) :
    (analyze r s).map Table.rows = Except.ok r.rows := by
  rw [analyze_unfold] at h
  by_cases he : t.rows.isEmpty
  · rw [if_pos he] at h
    injection h with h2
    subst h2
    rw [analyze_unfold, if_pos (by rfl), emap_ok]
  · rw [if_neg he, analyzeRows_filter] at h
    by_cases hok : all_ok t.flags s = true
    · rw [if_pos hok, emap_ok] at h
      injection h with h2
      have hflags : r.flags = t.flags := by rw [← h2]
      have hrows : r.rows = applyLimit s ((coerceIf t s).filter (chain_pred t.flags s)) := by
        rw [← h2]
      have hmem : ∀ x ∈ r.rows, x ∈ coerceIf t s ∧ chain_pred t.flags s x = true := by
        intro x hx
        rw [hrows] at hx
        have hx2 := applyLimit_subset s _ hx
        exact ⟨(List.mem_filter.mp hx2).1, (List.mem_filter.mp hx2).2⟩
      rw [analyze_unfold]
      by_cases he2 : r.rows.isEmpty
      · rw [if_pos he2, emap_ok]
        rw [List.isEmpty_iff.mp he2]
        rfl
      · rw [if_neg he2, analyzeRows_filter, hflags, if_pos hok]
        have hco2 : coerceIf r s = r.rows := by
          unfold coerceIf
          rw [hflags]
          by_cases hg : (time_column t.flags).isSome && s.time_range.isSome
          · rw [if_pos hg]
            unfold coerceTableTime
            rw [hflags]
            cases htc : time_column t.flags with
            | none => rw [htc] at hg
            | some tc =>
              show r.rows.map (coerceRowAt tc) = r.rows
              have hid : ∀ x ∈ r.rows, coerceRowAt tc x = x := by
                intro x hx
                have hx2 := (hmem x hx).1
                have hcrows : coerceIf t s = t.rows.map (coerceRowAt tc) := by
                  unfold coerceIf coerceTableTime
                  rw [if_pos hg, htc]
                rw [hcrows] at hx2
                obtain ⟨y, _, hy2⟩ := List.mem_map.mp hx2
                rw [← hy2, coerceRowAt_idem]
              rw [List.map_congr_left hid]
              simp
          · rw [if_neg hg]
        rw [hco2]
        rw [List.filter_eq_self.mpr fun x hx => (hmem x hx).2]
        rw [hrows, applyLimit_idem, ← hrows, emap_ok, emap_ok]
    · rw [if_neg hok, emap_err] at h
      exact Except.noConfusion h

/-- The witness table of C7. -/
def c7_table : Table :=
  { flags := { message := true },
    rows := [{ message := some "alpha" }, { message := some "beta" }] }

/-- The witness spec of C7: a message-text filter plus a results limit. -/
def c7_params : SearchParams :=
  { message_text := some "a", results_limit := some 1 }

/-- The result of filtering the witness table once. -/
def c7_result : Table :=
  { flags := { message := true }, rows := [{ message := some "alpha" }] }

/-- Witness for C7 at a concrete input with an active limit. -/
theorem claim_C7_witness :
    analyze c7_table c7_params = Except.ok c7_result
      ∧ (analyze c7_result c7_params).map Table.rows = Except.ok c7_result.rows :=
  ⟨by decide, claim_C7_idempotent c7_table c7_params c7_result (by decide)⟩


end LogPipeline
